import Mathlib

/-!
# Verification of the `tsdb` chain module (bench-routes)

Shallow embedding of `src/tsdb/db.go`. Go values become Lean values:

* `Block` is the sample struct, with `int64` modelled as `Int`.
* The filesystem is a pure state `FS`: a map from paths to the decoded
  block list a file holds, plus the set of existing directories. The JSON
  encode and decode primitives are, per the specification, an opaque
  serialize and deserialize capability, so file contents are kept in
  decoded form; `saveToHDD` stores the list a Go write would serialize and
  `parse` returns it when the path is readable. Go functions that can
  panic become `Except GoPanic` computations, with a `GoPanic` tag naming
  the panic site.
* `os.MkdirAll` and `ioutil.WriteFile` are modelled on a healthy
  filesystem: `MkdirAll` fails exactly on the empty path (in Go,
  `Mkdir("")` returns a path error, so `MkdirAll("")` fails), and a write
  into an existing or just-created directory succeeds.
* Go strings are manipulated through their character lists, with
  `strings.Split`, `strings.Join` and `strings.ReplaceAll` translated
  directly (single-character separators, which is all the source uses).
-/

set_option autoImplicit false

namespace Tsdb

/-- The reason a modelled Go execution aborts: each constructor names the
panic site in `db.go`. -/
inductive GoPanic where
  /-- `commit` panics when `parse` on the backing path returns an error. -/
  | parseFailed
  /-- `checkAndCreatePath` panics when `os.MkdirAll` returns an error. -/
  | mkdirFailed
  /-- `loadFromStorage` dereferences its `*string` argument; on a `nil`
  pointer (a failed `parse`) the Go runtime aborts. -/
  | nilDeref
  /-- `loadFromStorage` panics when `json.Unmarshal` fails. -/
  | decodeFailed
  /-- `Block.Encode` panics when `json.Marshal` fails. -/
  | encodeFailed
  deriving DecidableEq, Repr

/-- `Block` from `db.go`: one sample of the time series. `int64` is
modelled as `Int`. -/
structure Block where
  datapoint : String
  normalizedTime : Int
  type : String
  timestamp : String
  deriving DecidableEq, Repr

/-- One lowercase hexadecimal digit, as Go `encoding/json` emits in
escape sequences. -/
def hexDigit (n : Nat) : Char :=
  if n < 10 then Char.ofNat (48 + n) else Char.ofNat (87 + n)

/-- Go `encoding/json` escaping of one string character: quote,
backslash, newline, carriage return and tab get two-character escapes;
other control characters, plus the HTML-sensitive characters and the
line separators U+2028 and U+2029, get `\uXXXX` escapes; everything else
passes through. -/
def jsonEscapeChar (c : Char) : List Char :=
  if c = '"' then ['\\', '"']
  else if c = '\\' then ['\\', '\\']
  else if c = '\n' then ['\\', 'n']
  else if c = '\r' then ['\\', 'r']
  else if c = '\t' then ['\\', 't']
  else if c.toNat < 32 ∨ c = '<' ∨ c = '>' ∨ c = '&' then
    ['\\', 'u', '0', '0', hexDigit (c.toNat / 16), hexDigit (c.toNat % 16)]
  else if c.toNat = 8232 ∨ c.toNat = 8233 then
    ['\\', 'u', '2', '0', '2', hexDigit (c.toNat % 16)]
  else [c]

/-- A Go JSON string literal: the escaped content between quotes. -/
def quoteJSON (s : String) : String :=
  ⟨'"' :: (s.data.map jsonEscapeChar).flatten ++ ['"']⟩

/-- The decimal digits of a natural number, as Go formatting emits
them. -/
def natDecimal (n : Nat) : List Char :=
  if h : n < 10 then [Char.ofNat (48 + n)]
  else natDecimal (n / 10) ++ [Char.ofNat (48 + n % 10)]
decreasing_by exact Nat.div_lt_self (by omega) (by omega)

/-- The decimal string representation of an integer, as Go formatting
(`strconv.FormatInt`, `fmt` with verb `%d`, `encoding/json`) emits it. -/
def intDecimal (i : Int) : String :=
  if i < 0 then ⟨'-' :: natDecimal i.natAbs⟩ else ⟨natDecimal i.toNat⟩

/-- A Go field value as `json.Marshal` sees it. `Marshal` can only fail
on values of unsupported kind (channels, functions, complex numbers) or
cyclic values; `chanOrFunc` stands for those. Strings and integers
always marshal. -/
inductive GoFieldValue where
  | str (s : String)
  | int64 (n : Int)
  | chanOrFunc
  deriving DecidableEq, Repr

/-- `json.Marshal` on a single field value: strings and integers
serialize, unsupported kinds error. -/
def marshalFieldValue : GoFieldValue → Except String String
  | .str s => .ok (quoteJSON s)
  | .int64 n => .ok (intDecimal n)
  | .chanOrFunc => .error "json: unsupported type"

/-- `json.Marshal` on a struct: marshal each tagged field in declaration
order and assemble the object; fail when any field fails. -/
def marshalObject (fields : List (String × GoFieldValue)) : Except String String := do
  let parts ← fields.mapM fun kv => do
    let v ← marshalFieldValue kv.2
    pure (quoteJSON kv.1 ++ ":" ++ v)
  pure ("\x7b" ++ String.intercalate "," parts ++ "\x7d")

/-- The tagged fields of `Block`, in declaration order, as `json.Marshal`
reflects them: only string and integer fields. -/
def blockFields (b : Block) : List (String × GoFieldValue) :=
  [("datapoint", .str b.datapoint),
   ("normalized-time", .int64 b.normalizedTime),
   ("type", .str b.type),
   ("timestamp", .str b.timestamp)]

/-- `json.Marshal` applied to a `Block` value. -/
def jsonMarshalBlock (b : Block) : Except String String :=
  marshalObject (blockFields b)

/-- The JSON object `Block` serializes to. -/
def blockJSON (b : Block) : String :=
  "\x7b" ++
    String.intercalate ","
      [quoteJSON "datapoint" ++ ":" ++ quoteJSON b.datapoint,
       quoteJSON "normalized-time" ++ ":" ++ intDecimal b.normalizedTime,
       quoteJSON "type" ++ ":" ++ quoteJSON b.type,
       quoteJSON "timestamp" ++ ":" ++ quoteJSON b.timestamp] ++
  "\x7d"

/-- `Block.Encode` from `db.go`: `json.Marshal` the block, panicking on a
marshal error. -/
def Block.Encode (b : Block) : Except GoPanic String :=
  match jsonMarshalBlock b with
  | .error _ => .error GoPanic.encodeFailed
  | .ok s => .ok s

/-- `Block.GetType` from `db.go`. -/
def Block.GetType (b : Block) : String :=
  b.type

/-- `Block.GetDatapointEnc` from `db.go`. -/
def Block.GetDatapointEnc (b : Block) : String :=
  b.datapoint

/-- `Block.GetNormalizedTime` from `db.go`. -/
def Block.GetNormalizedTime (b : Block) : Int :=
  b.normalizedTime

/-- `Block.GetTimeStamp` from `db.go`. -/
def Block.GetTimeStamp (b : Block) : String :=
  b.timestamp

/-- The Go conversion `rune(n)` for an `int64` operand: truncation to a
signed 32-bit value (wrapping, in the two-complement sense). -/
def int32ofInt64 (n : Int) : Int :=
  (n + 2147483648) % 4294967296 - 2147483648

/-- The code point of the Go expression `string(r)` for a rune `r`: `r`
itself when it is a valid code point, and U+FFFD (the replacement
character) when it is negative, a surrogate, or above U+10FFFF. -/
def runeCodePoint (r : Int) : Nat :=
  if (0 ≤ r ∧ r < 55296) ∨ (57343 < r ∧ r ≤ 1114111) then r.toNat else 65533

/-- `Block.GetNormalizedTimeStringified` from `db.go`: the Go expression
`string(rune(b.NormalizedTime))`, a one-character string. -/
def Block.GetNormalizedTimeStringified (b : Block) : String :=
  ⟨[Char.ofNat (runeCodePoint (int32ofInt64 b.normalizedTime))]⟩

/-- The filesystem state seen by the module: which directories exist and,
for each readable file, the block list its JSON array decodes to. -/
structure FS where
  files : List (String × List Block)
  dirs : List String
  deriving DecidableEq, Repr

/-- Association list lookup, mirroring Go map indexing (first match). -/
def cmapFind {α : Type} (k : String) : List (String × α) → Option α
  | [] => none
  | (k', v) :: rest => if k' = k then some v else cmapFind k rest

/-- Association list insert or replace, mirroring Go map assignment. -/
def cmapSet {α : Type} (k : String) (v : α) : List (String × α) → List (String × α)
  | [] => [(k, v)]
  | (k', v') :: rest => if k' = k then (k, v) :: rest else (k', v') :: cmapSet k v rest

/-- `os.Stat(path)` succeeds: the path exists as a directory or a file. -/
def FS.statExists (fs : FS) (p : String) : Bool :=
  fs.dirs.contains p || (cmapFind p fs.files).isSome

/-- Go `strings.Split` with a one-character separator, on character
lists. `strings.Split("", sep)` returns one empty field. -/
def goSplit (sep : Char) : List Char → List (List Char)
  | [] => [[]]
  | c :: cs =>
    if c = sep then [] :: goSplit sep cs
    else
      match goSplit sep cs with
      | [] => [[c]]
      | g :: gs => (c :: g) :: gs

/-- Go `strings.Join` with a one-character separator, on character lists. -/
def goJoin (sep : Char) : List (List Char) → List Char
  | [] => []
  | [g] => g
  | g :: gs => g ++ sep :: goJoin sep gs

/-- Go `strings.ReplaceAll` with a one-character pattern, on character
lists. -/
def goReplaceAll (pat : Char) (rep : List Char) : List Char → List Char
  | [] => []
  | c :: cs => (if c = pat then rep else [c]) ++ goReplaceAll pat rep cs

/-- The directory computed by `checkAndCreatePath`: split the path on
`/`, drop the final segment, join back with `/`. -/
def parentDir (path : String) : String :=
  ⟨goJoin '/' ((goSplit '/' path.data).dropLast)⟩

/-- `checkAndCreatePath` from `db.go`: stat the parent directory of
`path`; when that fails, `os.MkdirAll` it, and panic when `MkdirAll`
errors (which on a healthy filesystem happens exactly for the empty
path). -/
def checkAndCreatePath (fs : FS) (path : String) : Except GoPanic FS :=
  if fs.statExists (parentDir path) then .ok fs
  else if parentDir path = "" then .error GoPanic.mkdirFailed
  else .ok { fs with dirs := parentDir path :: fs.dirs }

/-- `saveToHDD` from `db.go`: ensure the parent directory exists, then
write (create or overwrite) the file at `path` with the given decoded
content. -/
def saveToHDD (fs : FS) (path : String) (content : List Block) : Except GoPanic FS :=
  match checkAndCreatePath fs path with
  | .error e => .error e
  | .ok fs' => .ok { fs' with files := cmapSet path content fs'.files }

/-- `parse` from `db.go`: `ioutil.ReadFile` the path, returning the
decoded content when readable and `none` (the Go error branch, a `nil`
result pointer) when not. -/
def parse (fs : FS) (path : String) : Option (List Block) :=
  cmapFind path fs.files

/-- `loadFromStorage` from `db.go`: dereference the raw pointer and
`json.Unmarshal` it. A `nil` pointer (failed `parse`) aborts the process;
content written by `saveToHDD` always unmarshals. -/
def loadFromStorage : Option (List Block) → Except GoPanic (List Block)
  | none => .error GoPanic.nilDeref
  | some bs => .ok bs

/-- `mergeBlocksSlice` from `db.go`: append the new slice onto the old
one. -/
def mergeBlocksSlice (oldSlice newSlice : List Block) : List Block :=
  oldSlice ++ newSlice

/-- `filterChainPath` from `db.go`: replace every `.` with `___`, then
every `/` with `_`. -/
def filterChainPath (name : String) : String :=
  ⟨goReplaceAll '/' ['_'] (goReplaceAll '.' ['_', '_', '_'] name.data)⟩

/-- `Chain` from `db.go`. The mutex is concurrency plumbing with no pure
content; `inActiveIterations` is a `uint32`, modelled as a `Nat` kept
below `2 ^ 32` by wrapping increments. -/
structure Chain where
  path : String
  name : String
  route : String
  chain : List Block
  lengthElements : Nat
  containsNewBlocks : Bool
  inActiveIterations : Nat
  deriving DecidableEq, Repr

/-- `NewChain` from `db.go`: an empty in-memory chain bound to `path`,
with the dirty flag set. Fields not listed in the Go literal take their
zero values. -/
def NewChain (path : String) : Chain :=
  { path := path
    name := filterChainPath path
    route := ""
    chain := []
    lengthElements := 0
    containsNewBlocks := true
    inActiveIterations := 0 }

/-- `Chain.Init` from `db.go`: when the backing file is unreadable, reset
the in-memory sequence and write an empty array to the path (panicking if
that write fails); when it is readable, reset the in-memory sequence
without loading the content. -/
def Chain.Init (c : Chain) (fs : FS) : Except GoPanic (Chain × FS) :=
  match parse fs c.path with
  | none =>
    match saveToHDD fs c.path [] with
    | .error e => .error e
    | .ok fs' => .ok ({ c with lengthElements := 0, chain := [] }, fs')
  | some _ =>
    .ok ({ c with chain := [], lengthElements := List.length ([] : List Block) }, fs)

/-- `Chain.Append` from `db.go`: append the block, refresh the cached
length, set the dirty flag, and reset the inactivity counter when it is
nonzero. -/
def Chain.Append (c : Chain) (b : Block) : Chain :=
  { c with
    chain := c.chain ++ [b]
    lengthElements := (c.chain ++ [b]).length
    containsNewBlocks := true
    inActiveIterations := if c.inActiveIterations ≠ 0 then 0 else c.inActiveIterations }

/-- `Chain.commit` from `db.go`: read the backing file (panicking when it
is unreadable), merge the existing blocks with the in-memory ones
(existing first), rewrite the file with the merged list (panicking on
write failure), then clear the in-memory sequence and the dirty flag. -/
def Chain.commit (c : Chain) (fs : FS) : Except GoPanic (Chain × FS) :=
  match parse fs c.path with
  | none => .error GoPanic.parseFailed
  | some existingBlocks =>
    match saveToHDD fs c.path (mergeBlocksSlice existingBlocks c.chain) with
    | .error e => .error e
    | .ok fs' => .ok ({ c with chain := [], containsNewBlocks := false }, fs')

/-- `ChainReadOnly` from `db.go`: a path plus the last loaded block
stream. -/
structure ChainReadOnly where
  path : String
  chain : List Block
  deriving DecidableEq, Repr

/-- `ReadOnly` from `db.go`: an empty read view on `path`. -/
def ReadOnly (path : String) : ChainReadOnly :=
  { path := path, chain := [] }

/-- `ChainReadOnly.Refresh` from `db.go`: `parse` the path (on error only
a log line is emitted and execution continues), then unconditionally pass
the result pointer to `loadFromStorage` and store what it returns. -/
def ChainReadOnly.Refresh (c : ChainReadOnly) (fs : FS) : Except GoPanic ChainReadOnly :=
  match loadFromStorage (parse fs c.path) with
  | .error e => .error e
  | .ok bs => .ok { c with chain := bs }

/-- `ChainReadOnly.BlockStream` from `db.go`: the current in-memory
stream. -/
def ChainReadOnly.BlockStream (c : ChainReadOnly) : List Block :=
  c.chain

/-- `ChainSet` from `db.go`: the registry of chains. The Go map is
modelled as an association list; the flush duration and the cancel
channel are scheduler plumbing with no pure content beyond the fields
kept here. -/
structure ChainSet where
  flushDuration : Nat
  flushType : Nat
  cmap : List (String × Chain)
  deriving DecidableEq, Repr

/-- `NewChainSet` from `db.go`. -/
def NewChainSet (flushType : Nat) (flushDuration : Nat) : ChainSet :=
  { flushDuration := flushDuration, flushType := flushType, cmap := [] }

/-- `ChainSet.Register` from `db.go`: insert or replace the mapping for
`name`. -/
def ChainSet.Register (cs : ChainSet) (name : String) (chainAddress : Chain) : ChainSet :=
  { cs with cmap := cmapSet name chainAddress cs.cmap }

/-- `ChainSet.Get` from `db.go`: `(nil, false)` when `name` is absent,
otherwise the chain and `true`. -/
def ChainSet.Get (cs : ChainSet) (name : String) : Option Chain × Bool :=
  match cmapFind name cs.cmap with
  | none => (none, false)
  | some c => (some c, true)

/-- The body of the scheduler loop in `ChainSet.Run` for one chain: a
chain with new blocks is committed, otherwise its inactivity counter is
incremented (`uint32` arithmetic, so modulo `2 ^ 32`) and the filesystem
is untouched. -/
def tickChain (ch : Chain) (fs : FS) : Except GoPanic (Chain × FS) :=
  if ch.containsNewBlocks then ch.commit fs
  else .ok ({ ch with inActiveIterations := (ch.inActiveIterations + 1) % 4294967296 }, fs)

/-- One full scheduler tick of `ChainSet.Run` (time-based flush): fold
the loop body over every registered chain, threading the filesystem. -/
def ChainSet.tick (cs : ChainSet) (fs : FS) : Except GoPanic (ChainSet × FS) :=
  go cs.cmap fs >>= fun p => .ok ({ cs with cmap := p.1 }, p.2)
where
  /-- Process the registered chains in order. -/
  go : List (String × Chain) → FS → Except GoPanic (List (String × Chain) × FS)
    | [], fs => .ok ([], fs)
    | (n, ch) :: rest, fs => do
      let (ch', fs') ← tickChain ch fs
      let (rest', fs'') ← go rest fs'
      .ok ((n, ch') :: rest', fs'')

/-- A mutation of one chain: the two operations `Append` and `commit`
that the write path performs. -/
inductive ChainOp where
  | append (b : Block)
  | commit
  deriving DecidableEq, Repr

/-- Run one `ChainOp` on a chain and the filesystem. -/
def applyOp (c : Chain) (fs : FS) : ChainOp → Except GoPanic (Chain × FS)
  | .append b => .ok (c.Append b, fs)
  | .commit => c.commit fs

/-- Run a sequence of `ChainOp`s, stopping at the first panic. -/
def applyOps (c : Chain) (fs : FS) : List ChainOp → Except GoPanic (Chain × FS)
  | [] => .ok (c, fs)
  | op :: ops =>
    match applyOp c fs op with
    | .error e => .error e
    | .ok (c', fs') => applyOps c' fs' ops

/-- A sequence of `Append` calls, in order. -/
def appendBlocks (c : Chain) (bs : List Block) : Chain :=
  bs.foldl Chain.Append c

theorem appendBlocks_chain (c : Chain) (bs : List Block) :
    (appendBlocks c bs).chain = c.chain ++ bs := by
  induction bs generalizing c with
  | nil => simp [appendBlocks]
  | cons b bs ih =>
    simp [appendBlocks] at ih ⊢
    rw [ih]
    simp [Chain.Append]

theorem appendBlocks_path (c : Chain) (bs : List Block) :
    (appendBlocks c bs).path = c.path := by
  induction bs generalizing c with
  | nil => rfl
  | cons b bs ih =>
    simp [appendBlocks] at ih ⊢
    rw [ih]
    rfl

theorem cmapFind_cmapSet {α : Type} (k : String) (v : α) (m : List (String × α)) :
    cmapFind k (cmapSet k v m) = some v := by
  induction m with
  | nil => simp [cmapFind, cmapSet]
  | cons kv rest ih =>
    obtain ⟨k', v'⟩ := kv
    by_cases h : k' = k
    · simp [cmapFind, cmapSet, h]
    · simp [cmapFind, cmapSet, h, ih]

theorem goSplit_of_not_mem (sep : Char) (cs : List Char) (h : sep ∉ cs) :
    goSplit sep cs = [cs] := by
  induction cs with
  | nil => rfl
  | cons c cs ih =>
    rw [List.mem_cons, not_or] at h
    unfold goSplit
    rw [if_neg fun hc => h.1 hc.symm, ih h.2]

theorem parentDir_of_not_mem (path : String) (h : '/' ∉ path.data) :
    parentDir path = "" := by
  unfold parentDir
  rw [goSplit_of_not_mem _ _ h]
  rfl

theorem saveToHDD_ok_parse (fs : FS) (path : String) (content : List Block) (fs' : FS)
    (h : saveToHDD fs path content = .ok fs') :
    parse fs' path = some content := by
  unfold saveToHDD at h
  cases hc : checkAndCreatePath fs path with
  | error e => rw [hc] at h; exact Except.noConfusion h
  | ok fs1 =>
    rw [hc] at h
    simp only [Except.ok.injEq] at h
    subst h
    simp [parse, cmapFind_cmapSet]

theorem commit_ok_chain (c : Chain) (fs : FS) (c' : Chain) (fs' : FS)
    (h : c.commit fs = .ok (c', fs')) :
    c' = { c with chain := [], containsNewBlocks := false } := by
  unfold Chain.commit at h
  split at h
  · exact Except.noConfusion h
  · split at h
    · exact Except.noConfusion h
    · simp only [Except.ok.injEq, Prod.mk.injEq] at h
      exact h.1.symm

theorem commit_ok_file (c : Chain) (fs : FS) (prior : List Block) (c' : Chain) (fs' : FS)
    (hprior : parse fs c.path = some prior)
    (h : c.commit fs = .ok (c', fs')) :
    parse fs' c.path = some (prior ++ c.chain) := by
  unfold Chain.commit at h
  split at h
  · next heq => rw [hprior] at heq; exact Option.noConfusion heq
  · next ex heq =>
    rw [hprior] at heq
    obtain rfl : prior = ex := Option.some.injEq .. ▸ heq ▸ rfl
    split at h
    · exact Except.noConfusion h
    · next fs1 hs =>
      simp only [Except.ok.injEq, Prod.mk.injEq] at h
      rw [← h.2]
      simpa [mergeBlocksSlice] using saveToHDD_ok_parse _ _ _ _ hs

/-- A sample block used in concrete instantiations. -/
def blkW : Block :=
  { datapoint := "200", normalizedTime := 1, type := "latency", timestamp := "t1" }

/-- A filesystem holding an empty persisted chain at `a/b.json`. -/
def fsW : FS := { files := [("a/b.json", [])], dirs := ["a"] }

/-- A filesystem with no files and no directories. -/
def fsEmptyW : FS := { files := [], dirs := [] }

/-- The chain at `a/b.json` after one append. -/
def chainW : Chain := Chain.Append (NewChain "a/b.json") blkW

/-- The chain at `a/b.json` after one append and a commit. -/
def chainWC : Chain :=
  { path := "a/b.json", name := "a_b___json", route := "", chain := [],
    lengthElements := 1, containsNewBlocks := false, inActiveIterations := 0 }

/-- The filesystem after committing one appended block at `a/b.json`. -/
def fsWC : FS := { files := [("a/b.json", [blkW])], dirs := ["a"] }

/-- Claim C1: for every chain with an empty in-memory sequence and a readable
backing file, any sequence of `Append` calls followed by a `commit` persists
the previously persisted blocks followed by the appended blocks in append
order, so the persisted count is the prior persisted count plus the appended
count. -/
theorem commit_persists_appends (c : Chain) (bs : List Block) (fs : FS)
    (prior : List Block) (c' : Chain) (fs' : FS)
    (hclean : c.chain = [])
    (hprior : parse fs c.path = some prior)
    (hcommit : Chain.commit (appendBlocks c bs) fs = .ok (c', fs')) :
    parse fs' c.path = some (prior ++ bs) ∧
    (prior ++ bs).length = prior.length + bs.length := by
  have hpath := appendBlocks_path c bs
  have hfile := commit_ok_file (appendBlocks c bs) fs prior c' fs'
    (by rw [hpath]; exact hprior) hcommit
  rw [hpath, appendBlocks_chain, hclean] at hfile
  exact ⟨by simpa using hfile, by simp⟩

/-- Witness for claim C1 at a concrete chain, block and filesystem. -/
theorem commit_persists_appends_witness :
    parse fsWC "a/b.json" = some ([] ++ [blkW]) ∧
    ([] ++ [blkW]).length = ([] : List Block).length + [blkW].length :=
  commit_persists_appends (NewChain "a/b.json") [blkW] fsW [] chainWC fsWC rfl rfl rfl

/-- Claim C3 (code behavior): when the backing path cannot be read, `Refresh`
does not stop at its log line: `parse` returns a nil result pointer, which
`loadFromStorage` dereferences, aborting the process instead of keeping the
previous in-memory blocks. -/
theorem refresh_unreadable_panics (c : ChainReadOnly) (fs : FS)
    (h : parse fs c.path = none) :
    c.Refresh fs = .error GoPanic.nilDeref := by
  unfold ChainReadOnly.Refresh
  rw [h]
  rfl

/-- Witness for claim C3 at a concrete unreadable path. -/
theorem refresh_unreadable_panics_witness :
    (ReadOnly "missing.json").Refresh fsEmptyW = .error GoPanic.nilDeref :=
  refresh_unreadable_panics (ReadOnly "missing.json") fsEmptyW rfl

/-- Claim C4: starting from an empty persisted file, appending any sequence
of blocks, committing, and then refreshing a read-only view of the same path
yields exactly the appended blocks, in append order. -/
theorem append_commit_refresh_roundtrip (path : String) (fs : FS) (bs : List Block)
    (c' : Chain) (fs' : FS)
    (hempty : parse fs path = some [])
    (hcommit : Chain.commit (appendBlocks (NewChain path) bs) fs = .ok (c', fs')) :
    (ReadOnly path).Refresh fs' = .ok { path := path, chain := bs } := by
  have h1 := commit_persists_appends (NewChain path) bs fs [] c' fs' rfl hempty hcommit
  have h2 : parse fs' path = some bs := by simpa using h1.1
  simp [ChainReadOnly.Refresh, ReadOnly, h2, loadFromStorage]

/-- Witness for claim C4 at a concrete path, block and filesystem. -/
theorem append_commit_refresh_roundtrip_witness :
    (ReadOnly "a/b.json").Refresh fsWC = .ok { path := "a/b.json", chain := [blkW] } :=
  append_commit_refresh_roundtrip "a/b.json" fsW [blkW] chainWC fsWC rfl rfl

/-- Claim C5: after a successful `commit` the in-memory sequence is empty and
the dirty flag is false, and the scheduler loop body on a chain whose dirty
flag is false does not commit: it leaves the filesystem unchanged and
increments the inactivity counter (uint32 arithmetic). -/
theorem commit_clears_and_tick_increments (c : Chain) (fs : FS) (c' : Chain)
    (fs' fs2 : FS) (hcommit : c.commit fs = .ok (c', fs')) :
    c'.chain = [] ∧ c'.containsNewBlocks = false ∧
    tickChain c' fs2 =
      .ok ({ c' with inActiveIterations := (c'.inActiveIterations + 1) % 4294967296 }, fs2) := by
  have h := commit_ok_chain c fs c' fs' hcommit
  subst h
  exact ⟨rfl, rfl, by simp [tickChain]⟩

/-- Witness for claim C5 at a concrete committed chain. -/
theorem commit_clears_and_tick_increments_witness :
    chainWC.chain = [] ∧ chainWC.containsNewBlocks = false ∧
    tickChain chainWC fsWC =
      .ok ({ chainWC with inActiveIterations := (chainWC.inActiveIterations + 1) % 4294967296 },
        fsWC) :=
  commit_clears_and_tick_increments chainW fsW chainWC fsWC fsWC rfl

/-- Claim C6: `Init` leaves the in-memory sequence empty and the cached
length zero whether or not the backing file is readable; an unreadable file
is replaced by an empty persisted array, and a readable file leaves the
filesystem unchanged (its content is not loaded into memory). -/
theorem init_resets_memory (c : Chain) (fs : FS) (c' : Chain) (fs' : FS)
    (hinit : c.Init fs = .ok (c', fs')) :
    c'.chain = [] ∧ c'.lengthElements = 0 ∧
    (parse fs c.path = none → parse fs' c.path = some []) ∧
    (parse fs c.path ≠ none → fs' = fs) := by
  unfold Chain.Init at hinit
  split at hinit
  · next heq =>
    split at hinit
    · exact Except.noConfusion hinit
    · next fs1 hs =>
      simp only [Except.ok.injEq, Prod.mk.injEq] at hinit
      obtain ⟨hc, hf⟩ := hinit
      subst hc
      subst hf
      exact ⟨rfl, rfl, fun _ => saveToHDD_ok_parse _ _ _ _ hs, fun hne => absurd heq hne⟩
  · next ex heq =>
    simp only [Except.ok.injEq, Prod.mk.injEq] at hinit
    obtain ⟨hc, hf⟩ := hinit
    subst hc
    subst hf
    refine ⟨rfl, rfl, fun hnone => ?_, fun _ => rfl⟩
    rw [heq] at hnone
    exact Option.noConfusion hnone

/-- Witness for claim C6 at a concrete chain with a readable backing file. -/
theorem init_resets_memory_witness :
    (NewChain "a/b.json").chain = [] ∧ (NewChain "a/b.json").lengthElements = 0 ∧
    (parse fsW (NewChain "a/b.json").path = none →
      parse fsW (NewChain "a/b.json").path = some []) ∧
    (parse fsW (NewChain "a/b.json").path ≠ none → fsW = fsW) :=
  init_resets_memory (NewChain "a/b.json") fsW (NewChain "a/b.json") fsW rfl

/-- Claim C7: registering a second chain under an existing name replaces the
mapping, so `Get` returns the second chain with a found indication. -/
theorem register_twice_get (cs : ChainSet) (n : String) (c1 c2 : Chain) :
    ((cs.Register n c1).Register n c2).Get n = (some c2, true) := by
  simp [ChainSet.Get, ChainSet.Register, cmapFind_cmapSet]

/-- Claim C8: `Encode` succeeds on every block and returns its JSON
serialization; the marshal-error panic branch is unreachable because every
field of `Block` is a string or an integer. -/
theorem encode_succeeds (b : Block) : b.Encode = Except.ok (blockJSON b) := rfl

/-- Claim C10: for a path with no `/` separator whose file does not exist
(on a filesystem with no entry for the empty path), `Init` panics instead of
creating the file: the directory helper strips the only path segment, leaving
the empty string, and `MkdirAll` of the empty string fails. -/
theorem init_no_separator_panics (c : Chain) (fs : FS)
    (hsep : '/' ∉ c.path.data)
    (hmiss : parse fs c.path = none)
    (hroot : fs.statExists "" = false) :
    c.Init fs = .error GoPanic.mkdirFailed := by
  have hdir := parentDir_of_not_mem c.path hsep
  simp [Chain.Init, hmiss, saveToHDD, checkAndCreatePath, hdir, hroot]

/-- Witness for claim C10 at a concrete separator-free path. -/
theorem init_no_separator_panics_witness :
    (NewChain "x.json").Init fsEmptyW = .error GoPanic.mkdirFailed :=
  init_no_separator_panics (NewChain "x.json") fsEmptyW (by decide) rfl rfl

theorem applyOp_establishes (c : Chain) (fs : FS) (op : ChainOp) (c1 : Chain) (fs1 : FS)
    (h : applyOp c fs op = .ok (c1, fs1)) :
    (c1.containsNewBlocks = true ↔ c1.chain ≠ []) := by
  cases op with
  | append b =>
    have h' : Except.ok ((c.Append b, fs) : Chain × FS) = .ok (c1, fs1) := h
    simp only [Except.ok.injEq, Prod.mk.injEq] at h'
    rw [← h'.1]
    simp [Chain.Append]
  | commit =>
    rw [commit_ok_chain c fs c1 fs1 h]
    simp

theorem applyOps_keeps (ops : List ChainOp) (c : Chain) (fs : FS)
    (c' : Chain) (fs' : FS)
    (hc : c.containsNewBlocks = true ↔ c.chain ≠ [])
    (hrun : applyOps c fs ops = .ok (c', fs')) :
    (c'.containsNewBlocks = true ↔ c'.chain ≠ []) := by
  induction ops generalizing c fs with
  | nil =>
    have h' : Except.ok ((c, fs) : Chain × FS) = .ok (c', fs') := hrun
    simp only [Except.ok.injEq, Prod.mk.injEq] at h'
    rw [← h'.1]
    exact hc
  | cons op rest ih =>
    unfold applyOps at hrun
    cases hop : applyOp c fs op with
    | error e => rw [hop] at hrun; exact Except.noConfusion hrun
    | ok p =>
      rw [hop] at hrun
      have hrun' : applyOps p.1 p.2 rest = .ok (c', fs') := hrun
      exact ih p.1 p.2 (applyOp_establishes c fs op p.1 p.2 hop) hrun'

/-- Counterexample to claim C2 as stated: the freshly constructed chain is a
reachable state (the empty operation sequence) whose dirty flag is set while
its in-memory sequence is empty. -/
theorem newChain_dirty_empty_counterexample :
    applyOps (NewChain "x") fsEmptyW [] = .ok (NewChain "x", fsEmptyW) ∧
    (NewChain "x").containsNewBlocks = true ∧
    (NewChain "x").chain = [] ∧
    ¬((NewChain "x").containsNewBlocks = true ↔ (NewChain "x").chain ≠ []) :=
  ⟨rfl, rfl, rfl, by decide⟩

/-- Claim C2 (amended): for every chain state produced from `NewChain` by at
least one `Append` or `commit` operation, the dirty flag is true exactly when
the in-memory sequence is non-empty; the freshly constructed chain itself is
the sole exception, carrying a set dirty flag with an empty sequence. -/
theorem dirty_iff_nonempty_after_ops (path : String) (fs0 : FS) (op : ChainOp)
    (ops : List ChainOp) (c' : Chain) (fs' : FS)
    (hrun : applyOps (NewChain path) fs0 (op :: ops) = .ok (c', fs')) :
    (c'.containsNewBlocks = true ↔ c'.chain ≠ []) := by
  unfold applyOps at hrun
  cases hop : applyOp (NewChain path) fs0 op with
  | error e => rw [hop] at hrun; exact Except.noConfusion hrun
  | ok p =>
    rw [hop] at hrun
    have hrun' : applyOps p.1 p.2 ops = .ok (c', fs') := hrun
    exact applyOps_keeps ops p.1 p.2 c' fs'
      (applyOp_establishes (NewChain path) fs0 op p.1 p.2 hop) hrun'

/-- Witness for claim C2 (amended) after one concrete append. -/
theorem dirty_iff_nonempty_after_ops_witness :
    (chainW.containsNewBlocks = true ↔ chainW.chain ≠ []) :=
  dirty_iff_nonempty_after_ops "a/b.json" fsW (ChainOp.append blkW) [] chainW fsW rfl

theorem natDecimal_ne_nil (n : Nat) : natDecimal n ≠ [] := by
  unfold natDecimal
  split
  · simp
  · simp

theorem natDecimal_lt_ten (n : Nat) (h : n < 10) :
    natDecimal n = [Char.ofNat (48 + n)] := by
  unfold natDecimal
  rw [dif_pos h]

theorem natDecimal_length_one (n : Nat) (h : (natDecimal n).length = 1) :
    n < 10 := by
  by_contra hn
  have hstep : natDecimal n = natDecimal (n / 10) ++ [Char.ofNat (48 + n % 10)] := by
    conv_lhs => rw [natDecimal]
    rw [dif_neg hn]
  rw [hstep, List.length_append] at h
  simp only [List.length_singleton] at h
  have hz : (natDecimal (n / 10)).length = 0 := by omega
  exact natDecimal_ne_nil (n / 10) (List.length_eq_zero.mp hz)

theorem char_ofNat_digit_ne (m : Nat) (hm : m < 10) :
    Char.ofNat m ≠ Char.ofNat (48 + m) := by
  interval_cases m <;> decide

/-- Claim C9: `GetNormalizedTimeStringified` returns the one-character string
whose single character is the code point numbered by the normalized time
converted to a rune (with the replacement character for invalid code points),
and never the decimal string representation of the normalized time. -/
theorem getNormalizedTimeStringified_is_rune_string (b : Block) :
    b.GetNormalizedTimeStringified =
      String.mk [Char.ofNat (runeCodePoint (int32ofInt64 b.normalizedTime))] ∧
    b.GetNormalizedTimeStringified.length = 1 ∧
    b.GetNormalizedTimeStringified ≠ intDecimal b.normalizedTime := by
  refine ⟨rfl, rfl, ?_⟩
  intro heq
  simp only [Block.GetNormalizedTimeStringified] at heq
  by_cases hneg : b.normalizedTime < 0
  · rw [intDecimal, if_pos hneg] at heq
    have hdata : [Char.ofNat (runeCodePoint (int32ofInt64 b.normalizedTime))] =
        '-' :: natDecimal b.normalizedTime.natAbs := congrArg String.data heq
    injection hdata with h1 h2
    exact natDecimal_ne_nil _ h2.symm
  · rw [intDecimal, if_neg hneg] at heq
    have hdata : [Char.ofNat (runeCodePoint (int32ofInt64 b.normalizedTime))] =
        natDecimal b.normalizedTime.toNat := congrArg String.data heq
    have hlen : (natDecimal b.normalizedTime.toNat).length = 1 := by
      rw [← hdata]
      rfl
    have hlt := natDecimal_length_one _ hlen
    rw [natDecimal_lt_ten _ hlt] at hdata
    injection hdata with h1 _
    have h0 : (0 : Int) ≤ b.normalizedTime := by omega
    have hn10 : b.normalizedTime < 10 := by omega
    have h32 : int32ofInt64 b.normalizedTime = b.normalizedTime := by
      unfold int32ofInt64
      omega
    have hrc : runeCodePoint b.normalizedTime = b.normalizedTime.toNat := by
      unfold runeCodePoint
      rw [if_pos (Or.inl ⟨h0, by omega⟩)]
    rw [h32, hrc] at h1
    exact char_ofNat_digit_ne _ hlt h1

end Tsdb
